import Mathlib

/-!
Verification of the DMA descriptor-chain engine and capture state machine of
the PXA camera host driver (drivers/media/video/pxa_camera.c).

The development is a shallow embedding of the C source:
* the chain builder `calculate_dma_sglen` / `pxa_init_dma_channel`,
* the chain linker `pxa_dma_add_tail_buf` (its descriptor-memory effect and
  its controller bookkeeping effect),
* the interrupt-driven capture state machine (`pxa_videobuf_queue`,
  `pxa_camera_irq`, `pxa_camera_dma_irq`, `pxa_camera_wakeup`,
  `pxa_camera_check_link_miss`, `pxa_camera_start_capture`,
  `pxa_camera_stop_capture`).

C `int` values are modelled as `Int` (no intermediate value approaches the
32-bit range in the properties considered); DMA addresses are modelled as
`Int` as well.  C truncating division is `Int.tdiv`.
-/

namespace PxaCam

/-! ## Constants

`DDADR_STOP`, the `DCMD_*` and `DCSR_*` bits come from the platform header
`mach/dma.h` included by the source (the header itself is not part of this
repository; the values are the PXA27x ones the source is written against).
The `CISR_*` and `DMA_*` constants are defined in pxa_camera.c itself.
-/

def DDADR_STOP : Int := 1

def DCMD_INCTRGADDR : Int := 0x40000000
def DCMD_FLOWSRC : Int := 0x20000000
def DCMD_ENDIRQEN : Int := 0x200000
def DCMD_BURST8 : Int := 0x10000

/-- The fixed command bits `DCMD_FLOWSRC | DCMD_BURST8 | DCMD_INCTRGADDR`
ORed into every data descriptor's `dcmd`.  The three values are distinct
single bits, all above the 13-bit length field, so the C bitwise OR with a
transfer length coincides with addition and subtracting `dcmdFlags` recovers
the length field exactly. -/
def dcmdFlags : Int := DCMD_FLOWSRC + DCMD_BURST8 + DCMD_INCTRGADDR

def DCSR_BUSERR : Nat := 1
def DCSR_STARTINTR : Nat := 2
def DCSR_ENDINTR : Nat := 4

def CISR_IFO_0 : Nat := 1
def CISR_IFO_1 : Nat := 2
def CISR_IFO_2 : Nat := 4
def CISR_EOF : Nat := 8

def DMA_Y : Nat := 1
def DMA_U : Nat := 2
def DMA_V : Nat := 4

/-! ## Data model of the chain builder -/

/-- One scatter-gather element, as seen through `sg_dma_address` /
`sg_dma_len`. -/
structure Seg where
  addr : Int
  len : Int
deriving DecidableEq, Repr

/-- One PXA DMA descriptor (`struct pxa_dma_desc`): source address,
target address, command word, link to the next descriptor.  A descriptor
occupies 16 bytes in the coherent array, so descriptor `i` of a chain based
at `sg_dma` lives at DMA address `sg_dma + 16 * i`. -/
structure Desc where
  dsadr : Int
  dtadr : Int
  dcmd : Int
  ddadr : Int
deriving DecidableEq, Repr

/-- The `(*sg_first, *sg_first_ofs)` in/out cursor of
`pxa_init_dma_channel`: the scatterlist suffix starting at `*sg_first`,
and the offset inside its first element. -/
structure Cursor where
  segs : List Seg
  ofs : Int
deriving DecidableEq, Repr

/-- `roundup(x, 8)` from the kernel: `(((x) + 7) / 8) * 8` with C
truncating division. -/
def roundup8 (x : Int) : Int := ((x + 7).tdiv 8) * 8

/-- `calculate_dma_sglen(sglist, sglen, sg_first_ofs, size)`: walk the
scatterlist, consuming `roundup(min(dma_len - offset, size), 8)` bytes per
element, and return the number of elements used (`i + 1`).  `none` models
the `BUG_ON(size != 0)` firing after the walk exhausts the list with bytes
still to transfer (for the empty list the C loop body never runs and the
returned index is uninitialized, which is likewise undefined). -/
def calculate_dma_sglen : List Int → Int → Int → Option Nat
  | [], _, _ => none
  | dma_len :: rest, offset, size =>
    let xfer_len := roundup8 (min (dma_len - offset) size)
    let size' := max 0 (size - xfer_len)
    if size' = 0 then some 1
    else
      match calculate_dma_sglen rest 0 size' with
      | some n => some (n + 1)
      | none => none

/-- Result of the descriptor-filling `for_each_sg` loop of
`pxa_init_dma_channel`: the data descriptors written, the final values of
the loop variables `xfer_len` and `sg` (the element the walk stopped in),
and the scatterlist elements after that one (`sg_next(sg)` onwards). -/
structure LoopOut where
  descs : List Desc
  xfer_len : Int
  stopSeg : Seg
  rest : List Seg
deriving DecidableEq, Repr

/-- The descriptor-filling loop of `pxa_init_dma_channel`.  `resStart` is
`pcdev->res->start`, `cibr` the channel's receive-buffer register offset,
`sg_dma` the DMA address of the coherent descriptor array, `idx` the index
`i` of the next descriptor to fill.  Descriptor `i` is written with
`dsadr = resStart + cibr`, `dtadr = sg_dma_address(sg) + offset`,
`dcmd = DCMD_FLOWSRC | DCMD_BURST8 | DCMD_INCTRGADDR | xfer_len` and
`ddadr = sg_dma + (i + 1) * sizeof(pxa_dma_desc)`.  (The `DCMD_STARTIRQEN`
bit is only set under `#ifdef DEBUG`, which is not defined.)  `none` models
running out of scatterlist elements with bytes still to transfer, which the
preceding `calculate_dma_sglen` call turns into a `BUG_ON`. -/
def init_dma_loop (resStart cibr sg_dma : Int) :
    Nat → List Seg → Int → Int → Option LoopOut
  | _, [], _, _ => none
  | idx, seg :: rest, offset, size =>
    let dma_len := seg.len
    let xfer_len := roundup8 (min (dma_len - offset) size)
    let size' := max 0 (size - xfer_len)
    let d : Desc :=
      { dsadr := resStart + cibr
        dtadr := seg.addr + offset
        dcmd := dcmdFlags + xfer_len
        ddadr := sg_dma + 16 * (idx + 1) }
    if size' = 0 then some ⟨[d], xfer_len, seg, rest⟩
    else
      match init_dma_loop resStart cibr sg_dma (idx + 1) rest 0 size' with
      | some out => some ⟨d :: out.descs, out.xfer_len, out.stopSeg, out.rest⟩
      | none => none

/-- A chain as laid out by `pxa_init_dma_channel` in the coherent array:
`sglen` data descriptors followed by the terminating descriptor at index
`sglen`, based at DMA address `sg_dma`. -/
structure BuiltChain where
  descs : List Desc
  sg_dma : Int
  sglen : Nat
deriving DecidableEq, Repr

/-- `pxa_init_dma_channel(pcdev, buf, dma, channel, cibr, size, &sg, &ofs)`.
Modelling notes, all bookkeeping outside the chain computation itself: the
initial `dma_free_coherent` of a previously built chain and the
`dma_alloc_coherent` are memory management (the `-ENOMEM` failure path is
not modelled: the model always has memory); the terminator's `dsadr` and
`dtadr` are never written by the C code (the model uses 0); its `dcmd` is
`DCMD_FLOWSRC | DCMD_BURST8 | DCMD_ENDIRQEN` (length field 0) and its
`ddadr` is `DDADR_STOP`.  After the loop the special case advances the
cursor: if `xfer_len >= dma_len`, the next channel starts at
`(sg_next(sg), xfer_len - dma_len)`, otherwise at `(sg, xfer_len)`. -/
def pxa_init_dma_channel (resStart cibr sg_dma size : Int) (cur : Cursor) :
    Option (BuiltChain × Cursor) :=
  match calculate_dma_sglen (cur.segs.map Seg.len) cur.ofs size with
  | none => none
  | some sglen =>
    match init_dma_loop resStart cibr sg_dma 0 cur.segs cur.ofs size with
    | none => none
    | some out =>
      let term : Desc :=
        { dsadr := 0, dtadr := 0
          dcmd := DCMD_FLOWSRC + DCMD_BURST8 + DCMD_ENDIRQEN
          ddadr := DDADR_STOP }
      let chain : BuiltChain := ⟨out.descs ++ [term], sg_dma, sglen⟩
      let cur' : Cursor :=
        if out.stopSeg.len ≤ out.xfer_len then
          ⟨out.rest, out.xfer_len - out.stopSeg.len⟩
        else
          ⟨out.stopSeg :: out.rest, out.xfer_len⟩
      some (chain, cur')

/-- The transfer length held in a data descriptor's `dcmd` length field,
recovered by removing the fixed command bits (see `dcmdFlags`). -/
def dcmdLen (d : Desc) : Int := d.dcmd - dcmdFlags

/-- The per-descriptor transfer lengths as the specification words them
(claim C1): each length is `min(segment_remaining, bytes_remaining)`
rounded up to the next multiple of 8, the remaining byte count dropping by
the rounded length, until it reaches 0. -/
def specLengths : List Int → Int → Int → List Int
  | [], _, _ => []
  | dma_len :: rest, offset, size =>
    let x := roundup8 (min (dma_len - offset) size)
    if max 0 (size - x) = 0 then [x]
    else x :: specLengths rest 0 (max 0 (size - x))

/-! ## Arithmetic facts about the 8-byte rounding -/

lemma roundup8_ge {x : Int} (hx : 0 ≤ x) : x ≤ roundup8 x := by
  unfold roundup8
  rw [Int.tdiv_eq_ediv (by omega) (by norm_num)]
  have h1 := Int.ediv_add_emod (x + 7) 8
  have h2 := Int.emod_nonneg (x + 7) (by norm_num : (8 : Int) ≠ 0)
  have h3 := Int.emod_lt_of_pos (x + 7) (by norm_num : (0 : Int) < 8)
  omega

lemma roundup8_le {x : Int} (hx : 0 ≤ x) : roundup8 x ≤ x + 7 := by
  unfold roundup8
  rw [Int.tdiv_eq_ediv (by omega) (by norm_num)]
  have h1 := Int.ediv_add_emod (x + 7) 8
  have h2 := Int.emod_nonneg (x + 7) (by norm_num : (8 : Int) ≠ 0)
  omega

/-! ## The covered walk: main lemmas about the chain builder -/

/-- Under a well-formed cursor (`0 ≤ ofs`, `ofs` inside the first element,
nonnegative element lengths) and a scatterlist that covers the request,
`calculate_dma_sglen` drives the remaining size to 0: the `BUG_ON` is
unreachable and the element count is between 1 and the list length. -/
lemma calculate_dma_sglen_covers :
    ∀ (lens : List Int) (ofs size : Int), 0 < size → 0 ≤ ofs →
    (∀ l, lens.head? = some l → ofs ≤ l) → (∀ l ∈ lens, 0 ≤ l) →
    size + ofs ≤ lens.sum →
    ∃ n, calculate_dma_sglen lens ofs size = some n ∧ 1 ≤ n ∧ n ≤ lens.length
  | [], ofs, size, hsize, hofs, _, _, hcover => by
    simp only [List.sum_nil] at hcover
    omega
  | l :: rest, ofs, size, hsize, hofs, hhead, hlens, hcover => by
    have hl : ofs ≤ l := hhead l rfl
    have hl0 : 0 ≤ l := hlens l (List.mem_cons_self l rest)
    set x := roundup8 (min (l - ofs) size) with hx
    have hmin0 : 0 ≤ min (l - ofs) size := le_min (by omega) (by omega)
    have hxge : min (l - ofs) size ≤ x := roundup8_ge hmin0
    have hxle : x ≤ min (l - ofs) size + 7 := roundup8_le hmin0
    by_cases hs : max 0 (size - x) = 0
    · refine ⟨1, ?_, le_refl 1, by simp⟩
      simp [calculate_dma_sglen, ← hx, hs]
    · have hpos : 0 < size - x := by
        rcases le_total (size - x) 0 with h | h
        · exact absurd (max_eq_left h) hs
        · rcases lt_or_eq_of_le h with h' | h'
          · exact h'
          · exact absurd (by rw [← h', max_self]) hs
      have hmax : max 0 (size - x) = size - x := max_eq_right (by omega)
      -- the segment, not the remaining size, was the binding constraint
      have hminseg : min (l - ofs) size = l - ofs := by
        rcases min_cases (l - ofs) size with ⟨h1, _⟩ | ⟨h1, h2⟩
        · exact h1
        · omega
      have hxseg : l - ofs ≤ x := by rw [hminseg] at hxge; exact hxge
      have hsum : size + ofs ≤ l + rest.sum := by
        simpa using hcover
      obtain ⟨n, hn, hn1, hn2⟩ :=
        calculate_dma_sglen_covers rest 0 (size - x) hpos (le_refl 0)
          (fun l' hl' => by
            have : l' ∈ rest := by
              cases rest with
              | nil => simp at hl'
              | cons a t => simp at hl'; simp [hl']
            exact hlens l' (List.mem_cons_of_mem l this))
          (fun l' hl' => hlens l' (List.mem_cons_of_mem l hl'))
          (by omega)
      refine ⟨n + 1, ?_, by omega, by simpa using hn2⟩
      simp only [calculate_dma_sglen, ← hx, hmax, if_neg (by omega : ¬(size - x = 0))]
      simp [hn]

/-- Master lemma about the descriptor-filling loop of
`pxa_init_dma_channel` on a covered request: it succeeds, agrees with
`calculate_dma_sglen` on the descriptor count, its `dcmd` length fields
are exactly the rounded lengths of the specification walk, their sum is in
`[size, size + 7]`, and descriptor `idx + k` links to descriptor
`idx + k + 1`. -/
lemma init_dma_loop_covers (R C D : Int) :
    ∀ (segs : List Seg) (ofs size : Int) (idx : Nat), 0 < size → 0 ≤ ofs →
    (∀ s, segs.head? = some s → ofs ≤ s.len) → (∀ s ∈ segs, 0 ≤ s.len) →
    size + ofs ≤ (segs.map Seg.len).sum →
    ∃ out, init_dma_loop R C D idx segs ofs size = some out ∧
      out.descs ≠ [] ∧
      out.descs.length ≤ segs.length ∧
      calculate_dma_sglen (segs.map Seg.len) ofs size = some out.descs.length ∧
      out.descs.map dcmdLen = specLengths (segs.map Seg.len) ofs size ∧
      size ≤ (out.descs.map dcmdLen).sum ∧
      (out.descs.map dcmdLen).sum ≤ size + 7 ∧
      (∀ k, k < out.descs.length →
        (out.descs.get? k).map Desc.ddadr = some (D + 16 * (idx + k + 1)))
  | [], ofs, size, idx, hsize, hofs, _, _, hcover => by
    simp only [List.map_nil, List.sum_nil] at hcover
    omega
  | seg :: rest, ofs, size, idx, hsize, hofs, hhead, hlens, hcover => by
    have hl : ofs ≤ seg.len := hhead seg rfl
    have hl0 : 0 ≤ seg.len := hlens seg (List.mem_cons_self seg rest)
    set x := roundup8 (min (seg.len - ofs) size) with hx
    have hmin0 : 0 ≤ min (seg.len - ofs) size := le_min (by omega) (by omega)
    have hxge : min (seg.len - ofs) size ≤ x := roundup8_ge hmin0
    have hxle : x ≤ min (seg.len - ofs) size + 7 := roundup8_le hmin0
    have hxsize : x ≤ size + 7 := le_trans hxle (by have := min_le_right (seg.len - ofs) size; omega)
    set d : Desc :=
      { dsadr := R + C
        dtadr := seg.addr + ofs
        dcmd := dcmdFlags + x
        ddadr := D + 16 * (idx + 1) } with hd
    by_cases hs : max 0 (size - x) = 0
    · have hxbig : size ≤ x := by
        by_contra h
        push_neg at h
        rw [max_eq_right (by omega : (0:Int) ≤ size - x)] at hs
        omega
      refine ⟨⟨[d], x, seg, rest⟩, ?_, by simp, by simp, ?_, ?_, ?_, ?_, ?_⟩
      · simp [init_dma_loop, ← hx, hs, hd]
      · simp [List.map_cons, calculate_dma_sglen, ← hx, hs]
      · simp [List.map_cons, specLengths, ← hx, hs, hd, dcmdLen]
      · simp [dcmdLen, hd]; omega
      · simp [dcmdLen, hd]; omega
      · intro k hk
        simp only [List.length_cons, List.length_nil] at hk
        have hk0 : k = 0 := by omega
        subst hk0
        simp [hd]
    · have hpos : 0 < size - x := by
        rcases le_total (size - x) 0 with h | h
        · exact absurd (max_eq_left h) hs
        · rcases lt_or_eq_of_le h with h' | h'
          · exact h'
          · exact absurd (by rw [← h', max_self]) hs
      have hmax : max 0 (size - x) = size - x := max_eq_right (by omega)
      have hminseg : min (seg.len - ofs) size = seg.len - ofs := by
        rcases min_cases (seg.len - ofs) size with ⟨h1, _⟩ | ⟨h1, h2⟩
        · exact h1
        · omega
      have hxseg : seg.len - ofs ≤ x := by rw [hminseg] at hxge; exact hxge
      have hsum : size + ofs ≤ seg.len + (rest.map Seg.len).sum := by
        simpa using hcover
      obtain ⟨out, hout, hne, hlen, hcalc, hspec, hlo, hhi, hdd⟩ :=
        init_dma_loop_covers R C D rest 0 (size - x) (idx + 1) hpos (le_refl 0)
          (fun s' hs' => by
            have : s' ∈ rest := by
              cases rest with
              | nil => simp at hs'
              | cons a t => simp at hs'; simp [hs']
            exact hlens s' (List.mem_cons_of_mem seg this))
          (fun s' hs' => hlens s' (List.mem_cons_of_mem seg hs'))
          (by omega)
      refine ⟨⟨d :: out.descs, out.xfer_len, out.stopSeg, out.rest⟩, ?_, by simp,
        by simpa using Nat.succ_le_succ hlen, ?_, ?_, ?_, ?_, ?_⟩
      · simp only [init_dma_loop, ← hx, hmax,
          if_neg (by omega : ¬(size - x = 0))]
        simp [hout, hd]
      · simp only [List.map_cons, calculate_dma_sglen, ← hx, hmax,
          if_neg (by omega : ¬(size - x = 0))]
        simp [hcalc]
      · simp only [List.map_cons, specLengths, ← hx, hmax,
          if_neg (by omega : ¬(size - x = 0))]
        rw [← hspec]
        simp [dcmdLen, hd]
      · simp only [List.map_cons, List.sum_cons, dcmdLen, hd]
        have : dcmdFlags + x - dcmdFlags = x := by ring
        rw [this]
        omega
      · simp only [List.map_cons, List.sum_cons, dcmdLen, hd]
        have : dcmdFlags + x - dcmdFlags = x := by ring
        rw [this]
        omega
      · intro k hk
        cases k with
        | zero => simp [hd]
        | succ k' =>
          simp only [List.length_cons] at hk
          have := hdd k' (by omega)
          simp only [List.get?_cons_succ]
          rw [this]
          congr 2
          push_cast
          ring

/-- `takeWhile` over a list all of whose elements satisfy the predicate,
followed by one element that does not, keeps exactly the prefix. -/
lemma takeWhile_append_last {α : Type} (p : α → Bool) :
    ∀ (l : List α), (∀ y ∈ l, p y = true) → ∀ t, p t = false →
      ((l ++ [t]).takeWhile p).length = l.length
  | [], _, t, ht => by simp [List.takeWhile, ht]
  | y :: l, h, t, ht => by
    have hy : p y = true := h y (List.mem_cons_self y l)
    simp only [List.cons_append, List.takeWhile_cons, hy, if_true,
      List.length_cons]
    have := takeWhile_append_last p l (fun z hz => h z (List.mem_cons_of_mem y hz)) t ht
    simp [this]

/-! ## Claims about the chain builder -/

/-- C1: for every call of the chain builder with `size > 0` and a
well-formed segment list covering the request, the build succeeds and the
sum of the `dcmd` length fields of the data descriptors is at least `size`
and at most `size + 7`, each individual length being
`min(segment_remaining, bytes_remaining)` rounded up to the next multiple
of 8 (the walk `specLengths`, worded from the specification). -/
theorem C1_chain_sum_bounds (R C D : Int) (segs : List Seg) (ofs size : Int)
    (hsize : 0 < size) (hofs : 0 ≤ ofs)
    (hhead : ∀ s, segs.head? = some s → ofs ≤ s.len)
    (hlens : ∀ s ∈ segs, 0 ≤ s.len)
    (hcover : size + ofs ≤ (segs.map Seg.len).sum) :
    ∃ chain cur,
      pxa_init_dma_channel R C D size ⟨segs, ofs⟩ = some (chain, cur) ∧
      chain.descs.dropLast.map dcmdLen = specLengths (segs.map Seg.len) ofs size ∧
      size ≤ (chain.descs.dropLast.map dcmdLen).sum ∧
      (chain.descs.dropLast.map dcmdLen).sum ≤ size + 7 := by
  obtain ⟨out, hout, hne, hlen, hcalc, hspec, hlo, hhi, hdd⟩ :=
    init_dma_loop_covers R C D segs ofs size 0 hsize hofs hhead hlens hcover
  refine ⟨⟨out.descs ++ [⟨0, 0, DCMD_FLOWSRC + DCMD_BURST8 + DCMD_ENDIRQEN,
      DDADR_STOP⟩], D, out.descs.length⟩,
    if out.stopSeg.len ≤ out.xfer_len then
      ⟨out.rest, out.xfer_len - out.stopSeg.len⟩
    else ⟨out.stopSeg :: out.rest, out.xfer_len⟩, ?_, ?_, ?_, ?_⟩
  · simp only [pxa_init_dma_channel, hcalc, hout]
  · simpa using hspec
  · simpa using hlo
  · simpa using hhi

theorem C1_chain_sum_bounds_witness :
    0 < (4096 : Int) ∧
    ∃ chain cur,
      pxa_init_dma_channel 0 40 8192 4096
        ⟨[⟨0, 2048⟩, ⟨10000, 2048⟩, ⟨20000, 2048⟩, ⟨30000, 2048⟩], 0⟩ =
        some (chain, cur) ∧
      chain.descs.dropLast.map dcmdLen =
        specLengths [2048, 2048, 2048, 2048] 0 4096 ∧
      (4096 : Int) ≤ (chain.descs.dropLast.map dcmdLen).sum ∧
      (chain.descs.dropLast.map dcmdLen).sum ≤ 4096 + 7 :=
  ⟨by decide,
   C1_chain_sum_bounds 0 40 8192
     [⟨0, 2048⟩, ⟨10000, 2048⟩, ⟨20000, 2048⟩, ⟨30000, 2048⟩] 0 4096
     (by decide) (by decide)
     (by decide) (by decide) (by decide)⟩

/-- C9 (implicit): `calculate_dma_sglen` on a covered request — nonneg
start offset inside the first element, nonnegative element lengths, total
reachable bytes at least the requested size — drives the remaining size to
exactly 0, so the `BUG_ON(size != 0)` is unreachable (the result is `some`)
and the returned count lies between 1 and the number of elements. -/
theorem C9_sglen_assert_unreachable (lens : List Int) (ofs size : Int)
    (hsize : 0 < size) (hofs : 0 ≤ ofs)
    (hhead : ∀ l, lens.head? = some l → ofs ≤ l)
    (hlens : ∀ l ∈ lens, 0 ≤ l)
    (hcover : size + ofs ≤ lens.sum) :
    ∃ n, calculate_dma_sglen lens ofs size = some n ∧ 1 ≤ n ∧ n ≤ lens.length :=
  calculate_dma_sglen_covers lens ofs size hsize hofs hhead hlens hcover

theorem C9_sglen_assert_unreachable_witness :
    0 < (4096 : Int) ∧
    ∃ n, calculate_dma_sglen [2048, 2048, 2048] 0 4096 = some n ∧
      1 ≤ n ∧ n ≤ 3 :=
  ⟨by decide,
   C9_sglen_assert_unreachable [2048, 2048, 2048] 0 4096 (by decide)
     (by decide) (by decide) (by decide) (by decide)⟩

/-- C4: every chain built on a covered request consists of `sglen` data
descriptors followed by the terminating descriptor: descriptor `k < sglen`
links to the DMA address of descriptor `k + 1`, the descriptor at index
`sglen` carries the stop marker, and walking the chain from its head the
number of descriptors traversed before the one whose link is `DDADR_STOP`
is exactly `sglen` (so the stop marker is reached in `sglen + 1`
descriptors, the chain's full descriptor count). -/
theorem C4_chain_terminates (R C D : Int) (segs : List Seg) (ofs size : Int)
    (hdvd : (16 : Int) ∣ D)
    (hsize : 0 < size) (hofs : 0 ≤ ofs)
    (hhead : ∀ s, segs.head? = some s → ofs ≤ s.len)
    (hlens : ∀ s ∈ segs, 0 ≤ s.len)
    (hcover : size + ofs ≤ (segs.map Seg.len).sum) :
    ∃ chain cur,
      pxa_init_dma_channel R C D size ⟨segs, ofs⟩ = some (chain, cur) ∧
      chain.descs.length = chain.sglen + 1 ∧
      (∀ k, k < chain.sglen →
        (chain.descs.get? k).map Desc.ddadr = some (D + 16 * (k + 1))) ∧
      (chain.descs.get? chain.sglen).map Desc.ddadr = some DDADR_STOP ∧
      (chain.descs.takeWhile (fun d => d.ddadr != DDADR_STOP)).length =
        chain.sglen := by
  obtain ⟨out, hout, hne, hlen, hcalc, hspec, hlo, hhi, hdd⟩ :=
    init_dma_loop_covers R C D segs ofs size 0 hsize hofs hhead hlens hcover
  obtain ⟨c, hc⟩ := hdvd
  have hstop : ∀ y ∈ out.descs, (y.ddadr != DDADR_STOP) = true := by
    intro y hy
    obtain ⟨k, hk⟩ := List.mem_iff_get?.1 hy
    have hklt : k < out.descs.length := by
      by_contra h
      push_neg at h
      rw [List.get?_eq_none.2 h] at hk
      exact Option.noConfusion hk
    have := hdd k hklt
    rw [hk] at this
    simp only [Option.map_some', Nat.cast_zero, zero_add] at this
    have hy' : y.ddadr = D + 16 * (↑k + 1) := Option.some.inj this
    rw [bne_iff_ne]
    rw [hy', hc, DDADR_STOP]
    intro hcontra
    omega
  refine ⟨⟨out.descs ++ [⟨0, 0, DCMD_FLOWSRC + DCMD_BURST8 + DCMD_ENDIRQEN,
      DDADR_STOP⟩], D, out.descs.length⟩,
    if out.stopSeg.len ≤ out.xfer_len then
      ⟨out.rest, out.xfer_len - out.stopSeg.len⟩
    else ⟨out.stopSeg :: out.rest, out.xfer_len⟩, ?_, ?_, ?_, ?_, ?_⟩
  · simp only [pxa_init_dma_channel, hcalc, hout]
  · simp
  · intro k hk
    simp only at hk
    rw [List.get?_append hk]
    have := hdd k hk
    simpa using this
  · simp only
    rw [List.get?_concat_length]
    simp
  · simp only
    rw [takeWhile_append_last _ out.descs hstop _ (by simp)]

theorem C4_chain_terminates_witness :
    (16 : Int) ∣ 4096 ∧
    ∃ chain cur,
      pxa_init_dma_channel 0 40 4096 24 ⟨[⟨0, 16⟩, ⟨100, 16⟩], 0⟩ =
        some (chain, cur) ∧
      chain.descs.length = chain.sglen + 1 ∧
      (∀ k, k < chain.sglen →
        (chain.descs.get? k).map Desc.ddadr = some (4096 + 16 * (k + 1))) ∧
      (chain.descs.get? chain.sglen).map Desc.ddadr = some DDADR_STOP ∧
      (chain.descs.takeWhile (fun d => d.ddadr != DDADR_STOP)).length =
        chain.sglen :=
  ⟨⟨256, by norm_num⟩,
   C4_chain_terminates 0 40 4096 [⟨0, 16⟩, ⟨100, 16⟩] 0 24 ⟨256, by norm_num⟩
     (by decide) (by decide) (by decide) (by decide) (by decide)⟩

/-- C2, counterexample to the claim as stated: with a single segment of
length 16, starting offset 8 and requested size 8, the last (only)
descriptor's rounded transfer length is 8, which exactly equals the
remaining bytes of its segment (16 − 8), yet the cursor returned for the
next channel is the same segment at offset 8, not the following segment at
offset 0.  (The C test is `xfer_len >= dma_len`, i.e. against the
segment's full length, so it does not fire when the final descriptor
started at a nonzero offset.) -/
theorem C2_boundary_counterexample :
    ((pxa_init_dma_channel 0 40 4096 8 ⟨[⟨0, 16⟩], 8⟩).map
        (fun r => (r.1.descs.dropLast.map dcmdLen, r.2)) =
      some ([8], ⟨[⟨0, 16⟩], 8⟩)) ∧
    ((8 : Int) = 16 - 8) ∧
    (Cursor.mk [⟨0, 16⟩] 8 ≠ Cursor.mk [] 0) := by
  decide

/-- C2, amended: if the last descriptor's rounded transfer length exactly
equals the **full length** of the segment it stops in (rather than the
segment's remaining bytes), the cursor returned for the next channel is
the following segment at offset 0. -/
theorem C2_boundary_amended (R C D size : Int) (segs : List Seg) (ofs : Int)
    (n : Nat) (out : LoopOut)
    (hcalc : calculate_dma_sglen (segs.map Seg.len) ofs size = some n)
    (hloop : init_dma_loop R C D 0 segs ofs size = some out)
    (hxfer : out.xfer_len = out.stopSeg.len) :
    pxa_init_dma_channel R C D size ⟨segs, ofs⟩ =
      some (⟨out.descs ++ [⟨0, 0, DCMD_FLOWSRC + DCMD_BURST8 + DCMD_ENDIRQEN,
        DDADR_STOP⟩], D, n⟩, ⟨out.rest, 0⟩) := by
  simp only [pxa_init_dma_channel, hcalc, hloop]
  rw [if_pos (le_of_eq hxfer.symm)]
  simp [hxfer]

theorem C2_boundary_amended_witness :
    pxa_init_dma_channel 0 40 4096 8 ⟨[⟨0, 8⟩, ⟨8, 8⟩], 0⟩ =
      some (⟨[⟨40, 0, dcmdFlags + 8, 4096 + 16⟩,
              ⟨0, 0, DCMD_FLOWSRC + DCMD_BURST8 + DCMD_ENDIRQEN, DDADR_STOP⟩],
             4096, 1⟩, ⟨[⟨8, 8⟩], 0⟩) :=
  C2_boundary_amended 0 40 4096 8 [⟨0, 8⟩, ⟨8, 8⟩] 0 1
    ⟨[⟨40, 0, dcmdFlags + 8, 4096 + 16⟩], 8, ⟨0, 8⟩, [⟨8, 8⟩]⟩
    (by decide) (by decide) (by decide)

/-! ## The chain linker: descriptor-memory view (`pxa_dma_add_tail_buf`)

For one channel, `pxa_dma_add_tail_buf` manipulates the `ddadr` link
fields of descriptors in DMA-coherent memory and the channel's recorded
tail pointer `pcdev->sg_tail[i]`.  The memory is modelled as a map from a
descriptor's DMA address to its `ddadr` field (the only field the linker
touches); `buf->dmas[i].sg_cpu + buf->dmas[i].sglen` is the terminating
descriptor, at DMA address `sg_dma + 16 * sglen`. -/

namespace Mem

/-- The per-channel linker state: the `ddadr` field of the descriptor at
each DMA address, and `pcdev->sg_tail[i]`. -/
structure LinkerState where
  mem : Int → Int
  sg_tail : Option Int

/-- `pxa_dma_add_tail_buf` for one channel, appending the chain based at
`sg_dma` with `sglen` data descriptors: set the buffer's last descriptor's
link to the stop marker; if the channel has a previous tail, rewrite its
link to the new chain's base address; record the buffer's last descriptor
as the channel tail. -/
def pxa_dma_add_tail_buf (st : LinkerState) (sg_dma : Int) (sglen : Nat) :
    LinkerState :=
  let lastAddr := sg_dma + 16 * sglen
  let m1 : Int → Int := fun a => if a = lastAddr then DDADR_STOP else st.mem a
  let m2 : Int → Int :=
    match st.sg_tail with
    | some t => fun a => if a = t then sg_dma else m1 a
    | none => m1
  ⟨m2, some lastAddr⟩

/-- Follow `ddadr` links `k` times from a DMA address. -/
def follow (mem : Int → Int) : Nat → Int → Int
  | 0, a => a
  | k + 1, a => follow mem k (mem a)

end Mem

/-- Following one more link is applying the memory map to the end of the
walk. -/
lemma follow_succ (m : Int → Int) :
    ∀ (k : Nat) (a : Int), Mem.follow m (k + 1) a = m (Mem.follow m k a)
  | 0, a => rfl
  | k + 1, a => by
    show Mem.follow m (k + 1) (m a) = m (Mem.follow m (k + 1) a)
    rw [follow_succ m k (m a)]
    rfl

/-- Helper for C3: if the links of B1's data descriptors read as built,
then `k ≤ n1` hops from B1's head land on B1's descriptor `k`. -/
lemma follow_chain (m : Int → Int) (b1 : Int) (n1 : Nat)
    (hchain : ∀ i, i < n1 → m (b1 + 16 * i) = b1 + 16 * (i + 1)) :
    ∀ k, k ≤ n1 → Mem.follow m k b1 = b1 + 16 * k := by
  intro k
  induction k with
  | zero => intro _; simp [Mem.follow]
  | succ k ih =>
    intro hk
    rw [follow_succ, ih (by omega), hchain k (by omega)]
    push_cast
    ring

/-- C3: append buffer B1 (chain base `b1`, `n1` data descriptors) and then
buffer B2 (base `b2`, `n2` data descriptors) to the same channel.
Hypotheses: chain bases are 16-aligned (DMA-coherent allocations), B1's
data links read as built, the channel's previous tail (if any) is not one
of B1's descriptors, and the two buffers' descriptor arrays are disjoint.
After the second append: B2's last descriptor's link is the stop marker,
the recorded channel tail is B2's last descriptor, and following links
from B1's chain head reaches B2's chain head in `n1 + 1` hops without
passing any descriptor whose link is the stop marker. -/
theorem C3_two_buffer_link (st0 : Mem.LinkerState) (b1 b2 : Int) (n1 n2 : Nat)
    (hdvd1 : (16 : Int) ∣ b1) (hdvd2 : (16 : Int) ∣ b2)
    (hchain : ∀ i : Nat, i < n1 →
      st0.mem (b1 + 16 * (i : Int)) = b1 + 16 * ((i : Int) + 1))
    (htail : ∀ i : Nat, i ≤ n1 → st0.sg_tail ≠ some (b1 + 16 * (i : Int)))
    (hdisj : ∀ i j : Nat, i ≤ n1 → j ≤ n2 →
      b1 + 16 * (i : Int) ≠ b2 + 16 * (j : Int)) :
    (Mem.pxa_dma_add_tail_buf (Mem.pxa_dma_add_tail_buf st0 b1 n1) b2 n2).mem
        (b2 + 16 * (n2 : Int)) = DDADR_STOP ∧
    (Mem.pxa_dma_add_tail_buf (Mem.pxa_dma_add_tail_buf st0 b1 n1) b2 n2).sg_tail =
        some (b2 + 16 * (n2 : Int)) ∧
    Mem.follow
        (Mem.pxa_dma_add_tail_buf (Mem.pxa_dma_add_tail_buf st0 b1 n1) b2 n2).mem
        (n1 + 1) b1 = b2 ∧
    (∀ k : Nat, k ≤ n1 →
      (Mem.pxa_dma_add_tail_buf (Mem.pxa_dma_add_tail_buf st0 b1 n1) b2 n2).mem
        (Mem.follow
          (Mem.pxa_dma_add_tail_buf (Mem.pxa_dma_add_tail_buf st0 b1 n1) b2 n2).mem
          k b1) ≠ DDADR_STOP) := by
  set st1 := Mem.pxa_dma_add_tail_buf st0 b1 n1 with hst1def
  set st2 := Mem.pxa_dma_add_tail_buf st1 b2 n2 with hst2def
  have hst1tail : st1.sg_tail = some (b1 + 16 * (n1 : Int)) := rfl
  -- B1's data links survive the first append
  have hst1 : ∀ i : Nat, i < n1 →
      st1.mem (b1 + 16 * (i : Int)) = b1 + 16 * ((i : Int) + 1) := by
    intro i hi
    have hne1 : (b1 + 16 * (i : Int)) ≠ b1 + 16 * (n1 : Int) := by
      intro h
      omega
    rw [hst1def]
    unfold Mem.pxa_dma_add_tail_buf
    cases htl : st0.sg_tail with
    | none =>
      simp only [htl]
      rw [if_neg hne1]
      exact hchain i hi
    | some t =>
      simp only [htl]
      have hnet : (b1 + 16 * (i : Int)) ≠ t := by
        intro h
        exact htail i (le_of_lt hi) (by rw [htl, h])
      rw [if_neg hnet, if_neg hne1]
      exact hchain i hi
  -- the second append's memory, pointwise
  have hst2 : ∀ a, st2.mem a =
      if a = b1 + 16 * (n1 : Int) then b2
      else if a = b2 + 16 * (n2 : Int) then DDADR_STOP
      else st1.mem a := by
    intro a
    rw [hst2def]
    unfold Mem.pxa_dma_add_tail_buf
    rw [hst1tail]
  -- B1's data links also survive the second append
  have hst2chain : ∀ i : Nat, i < n1 →
      st2.mem (b1 + 16 * (i : Int)) = b1 + 16 * ((i : Int) + 1) := by
    intro i hi
    rw [hst2 _]
    rw [if_neg (by intro h; omega), if_neg (hdisj i n2 (le_of_lt hi) (le_refl n2))]
    exact hst1 i hi
  have hwalk : ∀ k : Nat, k ≤ n1 →
      Mem.follow st2.mem k b1 = b1 + 16 * (k : Int) := by
    have := follow_chain st2.mem b1 n1 hst2chain
    intro k hk
    simpa using this k hk
  have htailval : st2.mem (b1 + 16 * (n1 : Int)) = b2 := by
    rw [hst2 _, if_pos rfl]
  obtain ⟨c1, hc1⟩ := hdvd1
  obtain ⟨c2, hc2⟩ := hdvd2
  refine ⟨?_, rfl, ?_, ?_⟩
  · rw [hst2 _, if_neg (fun h => hdisj n1 n2 (le_refl n1) (le_refl n2) h.symm),
      if_pos rfl]
  · rw [follow_succ, hwalk n1 (le_refl n1), htailval]
  · intro k hk
    rw [hwalk k hk]
    rcases lt_or_eq_of_le hk with hk' | hk'
    · rw [hst2chain k hk', DDADR_STOP]
      intro h
      omega
    · subst hk'
      rw [htailval, DDADR_STOP]
      intro h
      omega

theorem C3_two_buffer_link_witness :
    (Mem.pxa_dma_add_tail_buf
        (Mem.pxa_dma_add_tail_buf
          ⟨fun a => if a = 16 then 32 else 0, none⟩ 16 1) 64 1).mem
        (64 + 16 * (1 : Int)) = DDADR_STOP ∧
    (Mem.pxa_dma_add_tail_buf
        (Mem.pxa_dma_add_tail_buf
          ⟨fun a => if a = 16 then 32 else 0, none⟩ 16 1) 64 1).sg_tail =
        some (64 + 16 * (1 : Int)) ∧
    Mem.follow
        (Mem.pxa_dma_add_tail_buf
          (Mem.pxa_dma_add_tail_buf
            ⟨fun a => if a = 16 then 32 else 0, none⟩ 16 1) 64 1).mem
        (1 + 1) 16 = 64 ∧
    (∀ k : Nat, k ≤ 1 →
      (Mem.pxa_dma_add_tail_buf
          (Mem.pxa_dma_add_tail_buf
            ⟨fun a => if a = 16 then 32 else 0, none⟩ 16 1) 64 1).mem
        (Mem.follow
          (Mem.pxa_dma_add_tail_buf
            (Mem.pxa_dma_add_tail_buf
              ⟨fun a => if a = 16 then 32 else 0, none⟩ 16 1) 64 1).mem
          k 16) ≠ DDADR_STOP) :=
  C3_two_buffer_link ⟨fun a => if a = 16 then 32 else 0, none⟩ 16 64 1 1
    ⟨1, by norm_num⟩ ⟨4, by norm_num⟩
    (by
      intro i hi
      interval_cases i
      norm_num)
    (by
      intro i _
      simp)
    (by
      intro i j hi hj
      interval_cases i <;> interval_cases j <;> norm_num)

/-! ## The capture state machine

Software state of the driver (`pcdev` and the queued `pxa_buffer`s),
together with the few hardware register bits the handlers read and write:
`DCSR(chan) = DCSR_RUN` vs `0` per channel (written by
`pxa_dma_start_channels` / `pxa_dma_stop_channels`), and the `CICR0_ENB`
and `CICR0_EOFM` bits (written by `pxa_camera_start_capture` /
`pxa_camera_stop_capture` / `pxa_camera_irq`).  Buffers are identified by
a `Nat` id; the `capture` list holds ids in queue order.  Registers the
handlers only strobe (`CISR` / `DCSR` interrupt acknowledgments, the
`CIFR` FIFO reset) and the `DDADR` chain-head write of
`pxa_dma_start_channels` are hardware-only effects with no further
software-visible state and are not tracked; the current hardware
descriptor pointers `DDADR(chan)` advance autonomously and are passed to
`pxa_camera_dma_irq` as a read-only snapshot. -/

/-- `vb->state` of a videobuf buffer. -/
inductive VbState where
  | needsInit
  | prepared
  | queued
  | activeS
  | done
  | error
deriving DecidableEq, Repr

/-- The per-buffer fields the state machine touches: `buf->active_dma`
(bitmask of channels still to finish), `vb->state`, and whether
`wake_up(&vb->done)` has been issued for it.  (`vb->ts` and
`vb->field_count`, also set on completion, carry no control flow and are
not modelled.) -/
structure PxaBuf where
  active_dma : Nat
  vstate : VbState
  woken : Bool
deriving DecidableEq, Repr

instance : Inhabited PxaBuf := ⟨⟨0, VbState.needsInit, false⟩⟩

/-- The controller state. -/
structure CamState where
  capture : List Nat
  active : Option Nat
  bufs : Nat → PxaBuf
  sg_tail : Nat → Option Int
  channels : Nat
  dcsr_run : Nat → Bool
  cicr0_enb : Bool
  cicr0_eofm : Bool

/-- Update one buffer's record. -/
def updateBuf (st : CamState) (b : Nat) (f : PxaBuf → PxaBuf) : CamState :=
  { st with bufs := fun n => if n = b then f (st.bufs n) else st.bufs n }

/-- `pxa_dma_start_channels`: for each used channel, point `DDADR` at the
active buffer's chain head (hardware-only, untracked) and set
`DCSR = DCSR_RUN`. -/
def pxa_dma_start_channels (st : CamState) : CamState :=
  { st with dcsr_run := fun i => if i < st.channels then true else st.dcsr_run i }

/-- `pxa_dma_stop_channels`: write `DCSR = 0` on each used channel. -/
def pxa_dma_stop_channels (st : CamState) : CamState :=
  { st with dcsr_run := fun i => if i < st.channels then false else st.dcsr_run i }

/-- `pxa_camera_start_capture`: strobe the FIFO reset (hardware-only),
set `CICR0_ENB` and clear `CICR0_EOFM` (unmask the end-of-frame
interrupt). -/
def pxa_camera_start_capture (st : CamState) : CamState :=
  { st with cicr0_enb := true, cicr0_eofm := false }

/-- `pxa_camera_stop_capture`: stop all channels, clear `CICR0_ENB`, and
forget the active buffer. -/
def pxa_camera_stop_capture (st : CamState) : CamState :=
  let st1 := pxa_dma_stop_channels st
  { st1 with cicr0_enb := false, active := none }

/-- `pxa_videobuf_set_actdma`: `buf->active_dma = DMA_Y`, ORing in
`DMA_U | DMA_V` when 3 channels are in use. -/
def pxa_videobuf_set_actdma (st : CamState) (b : Nat) : CamState :=
  updateBuf st b (fun bf =>
    { bf with active_dma :=
        if st.channels = 3 then DMA_Y ||| DMA_U ||| DMA_V else DMA_Y })

/-- `pxa_dma_add_tail_buf`, controller-bookkeeping view: record the new
buffer's terminating descriptor (whose DMA address the caller passes per
channel) as each used channel's tail.  The descriptor-memory half of the
function is `Mem.pxa_dma_add_tail_buf`. -/
def pxa_dma_add_tail_buf (st : CamState) (tails : Nat → Int) : CamState :=
  { st with sg_tail := fun i => if i < st.channels then some (tails i) else st.sg_tail i }

/-- `pxa_videobuf_queue`: append the buffer to the capture list, mark it
`VIDEOBUF_ACTIVE`, link its chains onto the channel tails, and if no
buffer is active start capture. -/
def pxa_videobuf_queue (st : CamState) (b : Nat) (tails : Nat → Int) : CamState :=
  let st1 := updateBuf { st with capture := st.capture ++ [b] } b
    (fun bf => { bf with vstate := VbState.activeS })
  let st2 := pxa_dma_add_tail_buf st1 tails
  if st2.active = none then pxa_camera_start_capture st2 else st2

/-- `pxa_camera_wakeup`: dequeue the buffer (`list_del_init`), mark it
`VIDEOBUF_DONE` and wake its waiter; if the capture list is now empty,
stop capture and clear every used channel's tail, otherwise advance
`pcdev->active` to the new queue head. -/
def pxa_camera_wakeup (st : CamState) (b : Nat) : CamState :=
  let st1 := updateBuf { st with capture := st.capture.erase b } b
    (fun bf => { bf with vstate := VbState.done, woken := true })
  if st1.capture = [] then
    let st2 := pxa_camera_stop_capture st1
    { st2 with sg_tail := fun i => if i < st2.channels then none else st2.sg_tail i }
  else
    { st1 with active := st1.capture.head? }

/-- `pxa_camera_check_link_miss`: if there is an active buffer and every
used channel's current hardware descriptor pointer (`ddadr_now`) sits at
the stop marker, restart capture. -/
def pxa_camera_check_link_miss (st : CamState) (ddadr_now : Nat → Int) : CamState :=
  if st.active.isSome ∧
      (List.range st.channels).all (fun i => ddadr_now i == DDADR_STOP) = true then
    pxa_camera_start_capture st
  else st

/-- The CISR FIFO-overrun bits the handler checks:
`overrun = CISR_IFO_0`, ORed with `CISR_IFO_1 | CISR_IFO_2` for 3
channels. -/
def overrun_mask (nch : Nat) : Nat :=
  CISR_IFO_0 ||| (if nch = 3 then CISR_IFO_1 ||| CISR_IFO_2 else 0)

/-- `pxa_camera_dma_irq(channel, pcdev, act_dma)`: `status` is the `DCSR`
snapshot (read and written back to acknowledge — hardware-only),
`camera_status` the `CISR` snapshot, `ddadr_now` the current per-channel
`DDADR` pointers.  Bus errors and unknown interrupt sources are logged and
ignored; with no active buffer (the overrun-restart corner case) the
handler just returns.  On an end-of-transfer interrupt: an overrun while
the active buffer is not the last queued stops and restarts capture;
otherwise the channel's bit is cleared from `buf->active_dma` (the C
`&= ~act_dma`, written on the 32-bit mask) and, if the mask is now empty,
the buffer is woken up and the link-miss check runs.
`!list_is_last(pcdev->capture.next, &pcdev->capture)` holds exactly when
the capture list has at least two entries. -/
def pxa_camera_dma_irq (st : CamState) (channel : Nat) (status : Nat)
    (camera_status : Nat) (ddadr_now : Nat → Int) (act_dma : Nat) : CamState :=
  if status &&& DCSR_BUSERR ≠ 0 then st
  else if status &&& (DCSR_ENDINTR ||| DCSR_STARTINTR) = 0 then st
  else
    match st.active with
    | none => st
    | some b =>
      if status &&& DCSR_ENDINTR ≠ 0 then
        if camera_status &&& overrun_mask st.channels ≠ 0 ∧
            ¬ st.capture.length ≤ 1 then
          pxa_camera_start_capture (pxa_camera_stop_capture st)
        else
          let st1 := updateBuf st b
            (fun bf => { bf with active_dma := bf.active_dma &&& (4294967295 ^^^ act_dma) })
          if (st1.bufs b).active_dma = 0 then
            pxa_camera_check_link_miss (pxa_camera_wakeup st1 b) ddadr_now
          else st1
      else st

/-- `pxa_camera_irq`, the frame-boundary interrupt: a zero `CISR` is not
ours (`IRQ_NONE`); otherwise the status is acknowledged (hardware-only)
and on `CISR_EOF` the queue head becomes the active buffer, its channel
mask is reset, all used channels are started from their chain heads, and
further end-of-frame interrupts are masked.  (`list_first_entry` on an
empty queue is undefined in C; the transition-system guard — the EOF
interrupt only fires while `CICR0_ENB` is set and `CICR0_EOFM` clear —
together with the reachability invariant of claim C8 makes that case
unreachable; it is modelled as the identity.) -/
def pxa_camera_irq (st : CamState) (cisr : Nat) : CamState :=
  if cisr = 0 then st
  else if cisr &&& CISR_EOF ≠ 0 then
    match st.capture.head? with
    | none => st
    | some b =>
      let st1 := pxa_videobuf_set_actdma { st with active := some b } b
      let st2 := pxa_dma_start_channels st1
      { st2 with cicr0_eofm := true }
  else st

/-- The idle controller: empty queue, nothing active, no tails, channels
stopped, camera interface disabled with the end-of-frame interrupt masked
(`pxa_camera_activate` writes `CICR0 = 0x3ff`), for a session configured
with `nch` channels. -/
def initState (nch : Nat) : CamState :=
  { capture := []
    active := none
    bufs := fun _ => default
    sg_tail := fun _ => none
    channels := nch
    dcsr_run := fun _ => false
    cicr0_enb := false
    cicr0_eofm := true }

/-- The states reachable by the capture engine: from idle, via buffer
submissions, frame-boundary interrupts (which hardware only raises while
the camera interface is enabled and the end-of-frame interrupt unmasked),
and per-channel DMA-completion interrupts with arbitrary hardware
status. -/
inductive Reachable : CamState → Prop where
  | init (nch : Nat) : Reachable (initState nch)
  | queue (st : CamState) (b : Nat) (tails : Nat → Int) : Reachable st →
      Reachable (pxa_videobuf_queue st b tails)
  | frame (st : CamState) (cisr : Nat) : Reachable st →
      st.cicr0_enb = true → st.cicr0_eofm = false →
      Reachable (pxa_camera_irq st cisr)
  | dma (st : CamState) (channel status camera_status : Nat)
      (ddadr_now : Nat → Int) (act_dma : Nat) : Reachable st →
      Reachable (pxa_camera_dma_irq st channel status camera_status ddadr_now act_dma)

/-! ### Projection lemmas for the state-machine operations -/

@[simp] lemma updateBuf_capture (st : CamState) (b : Nat) (f : PxaBuf → PxaBuf) :
    (updateBuf st b f).capture = st.capture := rfl

@[simp] lemma updateBuf_active (st : CamState) (b : Nat) (f : PxaBuf → PxaBuf) :
    (updateBuf st b f).active = st.active := rfl

@[simp] lemma updateBuf_channels (st : CamState) (b : Nat) (f : PxaBuf → PxaBuf) :
    (updateBuf st b f).channels = st.channels := rfl

@[simp] lemma updateBuf_sg_tail (st : CamState) (b : Nat) (f : PxaBuf → PxaBuf) :
    (updateBuf st b f).sg_tail = st.sg_tail := rfl

@[simp] lemma updateBuf_dcsr_run (st : CamState) (b : Nat) (f : PxaBuf → PxaBuf) :
    (updateBuf st b f).dcsr_run = st.dcsr_run := rfl

@[simp] lemma updateBuf_cicr0_enb (st : CamState) (b : Nat) (f : PxaBuf → PxaBuf) :
    (updateBuf st b f).cicr0_enb = st.cicr0_enb := rfl

@[simp] lemma updateBuf_cicr0_eofm (st : CamState) (b : Nat) (f : PxaBuf → PxaBuf) :
    (updateBuf st b f).cicr0_eofm = st.cicr0_eofm := rfl

@[simp] lemma updateBuf_bufs_same (st : CamState) (b : Nat) (f : PxaBuf → PxaBuf) :
    (updateBuf st b f).bufs b = f (st.bufs b) := by
  simp [updateBuf]

lemma updateBuf_bufs_other (st : CamState) (b n : Nat) (f : PxaBuf → PxaBuf)
    (h : n ≠ b) : (updateBuf st b f).bufs n = st.bufs n := by
  simp [updateBuf, h]

@[simp] lemma start_capture_capture (st : CamState) :
    (pxa_camera_start_capture st).capture = st.capture := rfl

@[simp] lemma start_capture_active (st : CamState) :
    (pxa_camera_start_capture st).active = st.active := rfl

@[simp] lemma start_capture_bufs (st : CamState) :
    (pxa_camera_start_capture st).bufs = st.bufs := rfl

@[simp] lemma start_capture_sg_tail (st : CamState) :
    (pxa_camera_start_capture st).sg_tail = st.sg_tail := rfl

@[simp] lemma start_capture_channels (st : CamState) :
    (pxa_camera_start_capture st).channels = st.channels := rfl

@[simp] lemma start_capture_dcsr_run (st : CamState) :
    (pxa_camera_start_capture st).dcsr_run = st.dcsr_run := rfl

@[simp] lemma start_capture_enb (st : CamState) :
    (pxa_camera_start_capture st).cicr0_enb = true := rfl

@[simp] lemma start_capture_eofm (st : CamState) :
    (pxa_camera_start_capture st).cicr0_eofm = false := rfl

@[simp] lemma stop_capture_capture (st : CamState) :
    (pxa_camera_stop_capture st).capture = st.capture := rfl

@[simp] lemma stop_capture_active (st : CamState) :
    (pxa_camera_stop_capture st).active = none := rfl

@[simp] lemma stop_capture_bufs (st : CamState) :
    (pxa_camera_stop_capture st).bufs = st.bufs := rfl

@[simp] lemma stop_capture_sg_tail (st : CamState) :
    (pxa_camera_stop_capture st).sg_tail = st.sg_tail := rfl

@[simp] lemma stop_capture_channels (st : CamState) :
    (pxa_camera_stop_capture st).channels = st.channels := rfl

@[simp] lemma stop_capture_enb (st : CamState) :
    (pxa_camera_stop_capture st).cicr0_enb = false := rfl

@[simp] lemma stop_capture_eofm (st : CamState) :
    (pxa_camera_stop_capture st).cicr0_eofm = st.cicr0_eofm := rfl

@[simp] lemma stop_capture_dcsr_run (st : CamState) (i : Nat) :
    (pxa_camera_stop_capture st).dcsr_run i =
      if i < st.channels then false else st.dcsr_run i := rfl

/-- The link-miss detector never touches the queue, the buffers, the
tails, the channels in use, the DMA run bits, or the active pointer. -/
lemma check_link_miss_fields (st : CamState) (dd : Nat → Int) :
    (pxa_camera_check_link_miss st dd).capture = st.capture ∧
    (pxa_camera_check_link_miss st dd).bufs = st.bufs ∧
    (pxa_camera_check_link_miss st dd).active = st.active ∧
    (pxa_camera_check_link_miss st dd).sg_tail = st.sg_tail ∧
    (pxa_camera_check_link_miss st dd).channels = st.channels ∧
    (pxa_camera_check_link_miss st dd).dcsr_run = st.dcsr_run := by
  unfold pxa_camera_check_link_miss
  split <;> simp

/-- `pxa_camera_wakeup` always dequeues exactly the woken buffer. -/
lemma wakeup_capture (st : CamState) (b : Nat) :
    (pxa_camera_wakeup st b).capture = st.capture.erase b := by
  unfold pxa_camera_wakeup
  dsimp only
  split <;> simp_all

/-- `pxa_camera_wakeup` marks the buffer done and wakes its waiter. -/
lemma wakeup_bufs_same (st : CamState) (b : Nat) :
    (pxa_camera_wakeup st b).bufs b =
      { st.bufs b with vstate := VbState.done, woken := true } := by
  unfold pxa_camera_wakeup
  dsimp only
  split <;> simp

@[simp] lemma wakeup_channels (st : CamState) (b : Nat) :
    (pxa_camera_wakeup st b).channels = st.channels := by
  unfold pxa_camera_wakeup
  dsimp only
  split <;> simp

/-- When buffers remain queued after the dequeue, `pxa_camera_wakeup`
advances the active pointer to the new queue head and touches neither
tails nor channel run bits. -/
lemma wakeup_nonempty (st : CamState) (b : Nat)
    (h : st.capture.erase b ≠ []) :
    (pxa_camera_wakeup st b).active = (st.capture.erase b).head? ∧
    (pxa_camera_wakeup st b).sg_tail = st.sg_tail ∧
    (pxa_camera_wakeup st b).dcsr_run = st.dcsr_run ∧
    (pxa_camera_wakeup st b).cicr0_enb = st.cicr0_enb ∧
    (pxa_camera_wakeup st b).cicr0_eofm = st.cicr0_eofm := by
  unfold pxa_camera_wakeup
  dsimp only
  rw [if_neg (by simpa using h)]
  simp

/-- When the dequeue empties the queue, `pxa_camera_wakeup` stops capture
(every used channel's run bit cleared, interface disabled, no active
buffer) and clears every used channel's recorded tail. -/
lemma wakeup_empty (st : CamState) (b : Nat)
    (h : st.capture.erase b = []) :
    (pxa_camera_wakeup st b).active = none ∧
    (pxa_camera_wakeup st b).cicr0_enb = false ∧
    (∀ i, i < st.channels → (pxa_camera_wakeup st b).dcsr_run i = false) ∧
    (∀ i, i < st.channels → (pxa_camera_wakeup st b).sg_tail i = none) := by
  unfold pxa_camera_wakeup
  dsimp only
  rw [if_pos (by simpa using h)]
  refine ⟨rfl, rfl, fun i hi => ?_, fun i hi => ?_⟩
  · simp [hi]
  · simp [hi]

/-! ### Claims C5 and C10 -/

/-- C5: a DMA end-of-transfer interrupt that reports a FIFO overrun while
the active buffer is not the last queued makes the handler stop all
channels and immediately re-run the capture start sequence
(`pxa_camera_start_capture` after `pxa_camera_stop_capture`), leaving the
capture queue's order and count and every buffer's record unchanged. -/
theorem C5_overrun_restart (st : CamState) (b : Nat)
    (ch status cst : Nat) (dd : Nat → Int) (act : Nat) (i : Nat)
    (hactive : st.active = some b)
    (hbus : status &&& DCSR_BUSERR = 0)
    (hsrc : ¬ status &&& (DCSR_ENDINTR ||| DCSR_STARTINTR) = 0)
    (hend : status &&& DCSR_ENDINTR ≠ 0)
    (hov : cst &&& overrun_mask st.channels ≠ 0)
    (hqueue : 2 ≤ st.capture.length)
    (hi : i < st.channels) :
    pxa_camera_dma_irq st ch status cst dd act =
      pxa_camera_start_capture (pxa_camera_stop_capture st) ∧
    (pxa_camera_dma_irq st ch status cst dd act).capture = st.capture ∧
    (pxa_camera_dma_irq st ch status cst dd act).bufs = st.bufs ∧
    (pxa_camera_dma_irq st ch status cst dd act).dcsr_run i = false ∧
    (pxa_camera_dma_irq st ch status cst dd act).cicr0_enb = true ∧
    (pxa_camera_dma_irq st ch status cst dd act).cicr0_eofm = false := by
  have heq : pxa_camera_dma_irq st ch status cst dd act =
      pxa_camera_start_capture (pxa_camera_stop_capture st) := by
    unfold pxa_camera_dma_irq
    rw [if_neg (not_ne_iff.mpr hbus), if_neg hsrc]
    simp only [hactive]
    rw [if_pos hend, if_pos ⟨hov, by omega⟩]
  rw [heq]
  refine ⟨rfl, by simp, by simp, ?_, by simp, by simp⟩
  simp [hi]

theorem C5_overrun_restart_witness :
    pxa_camera_dma_irq
        { capture := [0, 1], active := some 0, bufs := fun _ => default
          sg_tail := fun _ => none, channels := 1, dcsr_run := fun _ => true
          cicr0_enb := true, cicr0_eofm := true } 0 4 1 (fun _ => 0) 1 =
      pxa_camera_start_capture (pxa_camera_stop_capture
        { capture := [0, 1], active := some 0, bufs := fun _ => default
          sg_tail := fun _ => none, channels := 1, dcsr_run := fun _ => true
          cicr0_enb := true, cicr0_eofm := true }) ∧
    (pxa_camera_dma_irq
        { capture := [0, 1], active := some 0, bufs := fun _ => default
          sg_tail := fun _ => none, channels := 1, dcsr_run := fun _ => true
          cicr0_enb := true, cicr0_eofm := true } 0 4 1 (fun _ => 0) 1).capture =
      [0, 1] ∧
    (pxa_camera_dma_irq
        { capture := [0, 1], active := some 0, bufs := fun _ => default
          sg_tail := fun _ => none, channels := 1, dcsr_run := fun _ => true
          cicr0_enb := true, cicr0_eofm := true } 0 4 1 (fun _ => 0) 1).bufs =
      (fun _ => default) ∧
    (pxa_camera_dma_irq
        { capture := [0, 1], active := some 0, bufs := fun _ => default
          sg_tail := fun _ => none, channels := 1, dcsr_run := fun _ => true
          cicr0_enb := true, cicr0_eofm := true } 0 4 1 (fun _ => 0) 1).dcsr_run 0 =
      false ∧
    (pxa_camera_dma_irq
        { capture := [0, 1], active := some 0, bufs := fun _ => default
          sg_tail := fun _ => none, channels := 1, dcsr_run := fun _ => true
          cicr0_enb := true, cicr0_eofm := true } 0 4 1 (fun _ => 0) 1).cicr0_enb =
      true ∧
    (pxa_camera_dma_irq
        { capture := [0, 1], active := some 0, bufs := fun _ => default
          sg_tail := fun _ => none, channels := 1, dcsr_run := fun _ => true
          cicr0_enb := true, cicr0_eofm := true } 0 4 1 (fun _ => 0) 1).cicr0_eofm =
      false :=
  C5_overrun_restart
    { capture := [0, 1], active := some 0, bufs := fun _ => default
      sg_tail := fun _ => none, channels := 1, dcsr_run := fun _ => true
      cicr0_enb := true, cicr0_eofm := true } 0 0 4 1 (fun _ => 0) 1 0
    rfl (by decide) (by decide) (by decide) (by decide) (by decide) (by decide)

/-- C10 (implicit): if a DMA-completion interrupt arrives with no active
buffer (the corner case after an overrun restart on another channel), the
handler only reads and acknowledges hardware status and returns: the
state — in particular the capture queue, the per-channel tails, and every
buffer's record — is unchanged. -/
theorem C10_no_active_noop (st : CamState) (ch status cst : Nat)
    (dd : Nat → Int) (act : Nat)
    (hactive : st.active = none) :
    pxa_camera_dma_irq st ch status cst dd act = st ∧
    (pxa_camera_dma_irq st ch status cst dd act).capture = st.capture ∧
    (pxa_camera_dma_irq st ch status cst dd act).sg_tail = st.sg_tail ∧
    (pxa_camera_dma_irq st ch status cst dd act).bufs = st.bufs := by
  have heq : pxa_camera_dma_irq st ch status cst dd act = st := by
    unfold pxa_camera_dma_irq
    split
    · rfl
    · split
      · rfl
      · simp only [hactive]
  rw [heq]
  exact ⟨rfl, rfl, rfl, rfl⟩

theorem C10_no_active_noop_witness :
    pxa_camera_dma_irq (initState 3) 0 4 0 (fun _ => 0) 1 = initState 3 ∧
    (pxa_camera_dma_irq (initState 3) 0 4 0 (fun _ => 0) 1).capture =
      (initState 3).capture ∧
    (pxa_camera_dma_irq (initState 3) 0 4 0 (fun _ => 0) 1).sg_tail =
      (initState 3).sg_tail ∧
    (pxa_camera_dma_irq (initState 3) 0 4 0 (fun _ => 0) 1).bufs =
      (initState 3).bufs :=
  C10_no_active_noop (initState 3) 0 4 0 (fun _ => 0) 1 rfl

/-! ### Claim C6 -/

/-- C6: when a DMA end-of-transfer interrupt retires the active buffer
(its channel mask becomes empty), the link-miss check runs right after the
wakeup; if at that point the queue is still non-empty and every used
channel's hardware descriptor pointer sits at the stop marker, the capture
start sequence is re-run on the wakeup state — whose active pointer is the
current queue head — and the recovery itself neither removes nor adds any
queue entry beyond the retired buffer's dequeue. -/
theorem C6_link_miss_recovery (st : CamState) (b : Nat)
    (ch status cst : Nat) (dd : Nat → Int) (act : Nat)
    (hactive : st.active = some b)
    (hbus : status &&& DCSR_BUSERR = 0)
    (hsrc : ¬ status &&& (DCSR_ENDINTR ||| DCSR_STARTINTR) = 0)
    (hend : status &&& DCSR_ENDINTR ≠ 0)
    (hov : cst &&& overrun_mask st.channels = 0)
    (hmask : (st.bufs b).active_dma &&& (4294967295 ^^^ act) = 0)
    (hq : st.capture.erase b ≠ [])
    (hdd : ∀ i, i < st.channels → dd i = DDADR_STOP) :
    pxa_camera_dma_irq st ch status cst dd act =
      pxa_camera_start_capture
        (pxa_camera_wakeup
          (updateBuf st b (fun bf =>
            { bf with active_dma := bf.active_dma &&& (4294967295 ^^^ act) })) b) ∧
    (pxa_camera_dma_irq st ch status cst dd act).capture = st.capture.erase b ∧
    (pxa_camera_dma_irq st ch status cst dd act).active =
      (st.capture.erase b).head? := by
  set st1 := updateBuf st b (fun bf =>
    { bf with active_dma := bf.active_dma &&& (4294967295 ^^^ act) }) with hst1
  have hq1 : st1.capture.erase b ≠ [] := by
    rw [hst1]
    simpa using hq
  obtain ⟨hwact, hwtail, hwrun, hwenb, hweofm⟩ := wakeup_nonempty st1 b hq1
  have hwcap : (pxa_camera_wakeup st1 b).capture = st.capture.erase b := by
    rw [wakeup_capture]
    simp [hst1]
  have hwact' : (pxa_camera_wakeup st1 b).active = (st.capture.erase b).head? := by
    rw [hwact, hst1]
    simp
  have hsome : ((st.capture.erase b).head?).isSome = true := by
    cases hcap : st.capture.erase b with
    | nil => exact absurd hcap hq
    | cons x t => simp
  have hcheck : pxa_camera_check_link_miss (pxa_camera_wakeup st1 b) dd =
      pxa_camera_start_capture (pxa_camera_wakeup st1 b) := by
    unfold pxa_camera_check_link_miss
    rw [if_pos]
    constructor
    · rw [hwact']
      exact hsome
    · rw [List.all_eq_true]
      intro i hi
      rw [List.mem_range] at hi
      rw [wakeup_channels] at hi
      have : i < st.channels := by
        rw [hst1] at hi
        simpa using hi
      rw [hdd i this]
      exact beq_self_eq_true DDADR_STOP
  have heq : pxa_camera_dma_irq st ch status cst dd act =
      pxa_camera_check_link_miss (pxa_camera_wakeup st1 b) dd := by
    unfold pxa_camera_dma_irq
    rw [if_neg (not_ne_iff.mpr hbus), if_neg hsrc]
    simp only [hactive]
    rw [if_pos hend, if_neg (by
      intro hcon
      exact hcon.1 hov)]
    simp only [← hst1]
    rw [if_pos (by
      rw [hst1]
      simpa using hmask)]
  refine ⟨?_, ?_, ?_⟩
  · rw [heq, hcheck]
  · rw [heq, hcheck, start_capture_capture, hwcap]
  · rw [heq, hcheck, start_capture_active, hwact']

theorem C6_link_miss_recovery_witness :
    pxa_camera_dma_irq
        { capture := [0, 1], active := some 0
          bufs := fun _ => ⟨1, VbState.activeS, false⟩
          sg_tail := fun _ => none, channels := 1, dcsr_run := fun _ => true
          cicr0_enb := true, cicr0_eofm := true } 0 4 0 (fun _ => 1) 1 =
      pxa_camera_start_capture
        (pxa_camera_wakeup
          (updateBuf
            { capture := [0, 1], active := some 0
              bufs := fun _ => ⟨1, VbState.activeS, false⟩
              sg_tail := fun _ => none, channels := 1, dcsr_run := fun _ => true
              cicr0_enb := true, cicr0_eofm := true } 0 (fun bf =>
            { bf with active_dma := bf.active_dma &&& (4294967295 ^^^ 1) })) 0) ∧
    (pxa_camera_dma_irq
        { capture := [0, 1], active := some 0
          bufs := fun _ => ⟨1, VbState.activeS, false⟩
          sg_tail := fun _ => none, channels := 1, dcsr_run := fun _ => true
          cicr0_enb := true, cicr0_eofm := true } 0 4 0 (fun _ => 1) 1).capture =
      [0, 1].erase 0 ∧
    (pxa_camera_dma_irq
        { capture := [0, 1], active := some 0
          bufs := fun _ => ⟨1, VbState.activeS, false⟩
          sg_tail := fun _ => none, channels := 1, dcsr_run := fun _ => true
          cicr0_enb := true, cicr0_eofm := true } 0 4 0 (fun _ => 1) 1).active =
      ([0, 1].erase 0).head? :=
  C6_link_miss_recovery
    { capture := [0, 1], active := some 0
      bufs := fun _ => ⟨1, VbState.activeS, false⟩
      sg_tail := fun _ => none, channels := 1, dcsr_run := fun _ => true
      cicr0_enb := true, cicr0_eofm := true } 0 0 4 0 (fun _ => 1) 1
    rfl (by decide) (by decide) (by decide) (by decide) (by decide)
    (by decide) (by decide)

/-! ### Claim C7 -/

/-- An end-of-transfer interrupt with no bus error and no overrun
condition clears the channel's bit from the active buffer's mask; when
bits remain the handler stops there. -/
lemma dma_irq_clear_nowake (st : CamState) (b : Nat)
    (ch status cst : Nat) (dd : Nat → Int) (act : Nat)
    (hactive : st.active = some b)
    (hbus : status &&& DCSR_BUSERR = 0)
    (hsrc : ¬ status &&& (DCSR_ENDINTR ||| DCSR_STARTINTR) = 0)
    (hend : status &&& DCSR_ENDINTR ≠ 0)
    (hov : cst &&& overrun_mask st.channels = 0)
    (hnz : (st.bufs b).active_dma &&& (4294967295 ^^^ act) ≠ 0) :
    pxa_camera_dma_irq st ch status cst dd act =
      updateBuf st b (fun bf =>
        { bf with active_dma := bf.active_dma &&& (4294967295 ^^^ act) }) := by
  unfold pxa_camera_dma_irq
  rw [if_neg (not_ne_iff.mpr hbus), if_neg hsrc]
  simp only [hactive]
  rw [if_pos hend, if_neg (fun hcon => hcon.1 hov)]
  rw [if_neg (by simpa using hnz)]

/-- When the cleared bit was the last one, the handler wakes the buffer up
and runs the link-miss check. -/
lemma dma_irq_clear_wake (st : CamState) (b : Nat)
    (ch status cst : Nat) (dd : Nat → Int) (act : Nat)
    (hactive : st.active = some b)
    (hbus : status &&& DCSR_BUSERR = 0)
    (hsrc : ¬ status &&& (DCSR_ENDINTR ||| DCSR_STARTINTR) = 0)
    (hend : status &&& DCSR_ENDINTR ≠ 0)
    (hov : cst &&& overrun_mask st.channels = 0)
    (hz : (st.bufs b).active_dma &&& (4294967295 ^^^ act) = 0) :
    pxa_camera_dma_irq st ch status cst dd act =
      pxa_camera_check_link_miss
        (pxa_camera_wakeup
          (updateBuf st b (fun bf =>
            { bf with active_dma := bf.active_dma &&& (4294967295 ^^^ act) })) b)
        dd := by
  unfold pxa_camera_dma_irq
  rw [if_neg (not_ne_iff.mpr hbus), if_neg hsrc]
  simp only [hactive]
  rw [if_pos hend, if_neg (fun hcon => hcon.1 hov)]
  rw [if_pos (by simpa using hz)]

/-- Run one `pxa_camera_dma_irq` per completed channel, in arrival order,
with fixed hardware snapshots.  (The DMA channel number passed to the
handler only selects which `DCSR` register is acknowledged, an untracked
hardware effect, so it is fixed at 0.) -/
def runDma (status cst : Nat) (dd : Nat → Int) : CamState → List Nat → CamState
  | st, [] => st
  | st, a :: r => runDma status cst dd (pxa_camera_dma_irq st 0 status cst dd a) r

/-- Clearing three distinct channel bits from the 3-channel mask
`DMA_Y | DMA_U | DMA_V = 7` leaves the mask non-empty after one or two
clears and empties it exactly at the third. -/
lemma clear_mask_facts (a b c : Nat)
    (ha : a ∈ [DMA_Y, DMA_U, DMA_V]) (hb : b ∈ [DMA_Y, DMA_U, DMA_V])
    (hc : c ∈ [DMA_Y, DMA_U, DMA_V])
    (hab : a ≠ b) (hac : a ≠ c) (hbc : b ≠ c) :
    7 &&& (4294967295 ^^^ a) ≠ 0 ∧
    7 &&& (4294967295 ^^^ a) &&& (4294967295 ^^^ b) ≠ 0 ∧
    7 &&& (4294967295 ^^^ a) &&& (4294967295 ^^^ b) &&& (4294967295 ^^^ c) = 0 := by
  fin_cases ha <;> fin_cases hb <;> fin_cases hc <;>
    first
      | exact absurd rfl hab
      | exact absurd rfl hac
      | exact absurd rfl hbc
      | decide

/-- C7: a 3-channel buffer at the head of the queue with all of
`DMA_Y | DMA_U | DMA_V` outstanding is marked Done — dequeued, state
`VIDEOBUF_DONE`, waiter woken — exactly by the last of the three
channel-completion interrupts, for every one of the six possible arrival
orders of the Y, U and V completions; after any proper prefix of the
three completions it is neither Done nor dequeued. -/
theorem C7_three_channel_done (st : CamState) (b : Nat) (rest : List Nat)
    (status cst : Nat) (dd : Nat → Int) (l : List Nat) (k : Nat)
    (hch : st.channels = 3)
    (hactive : st.active = some b)
    (hcap : st.capture = b :: rest)
    (hnotin : b ∉ rest)
    (hmask : (st.bufs b).active_dma = 7)
    (hvst : (st.bufs b).vstate = VbState.activeS)
    (hbus : status &&& DCSR_BUSERR = 0)
    (hsrc : ¬ status &&& (DCSR_ENDINTR ||| DCSR_STARTINTR) = 0)
    (hend : status &&& DCSR_ENDINTR ≠ 0)
    (hov : cst &&& overrun_mask 3 = 0)
    (hperm : l.Perm [DMA_Y, DMA_U, DMA_V])
    (hk : k < 3) :
    ((runDma status cst dd st (l.take k)).bufs b).vstate ≠ VbState.done ∧
    b ∈ (runDma status cst dd st (l.take k)).capture ∧
    ((runDma status cst dd st l).bufs b).vstate = VbState.done ∧
    ((runDma status cst dd st l).bufs b).woken = true ∧
    b ∉ (runDma status cst dd st l).capture := by
  have hlen : l.length = 3 := by simpa using hperm.length_eq
  obtain ⟨a1, a2, a3, rfl⟩ : ∃ x y z, l = [x, y, z] := by
    rcases l with _ | ⟨x, _ | ⟨y, _ | ⟨z, _ | ⟨w, t⟩⟩⟩⟩
    · simp at hlen
    · simp at hlen
    · simp at hlen
    · exact ⟨x, y, z, rfl⟩
    · simp at hlen
  have ha1 : a1 ∈ [DMA_Y, DMA_U, DMA_V] := hperm.subset (by simp)
  have ha2 : a2 ∈ [DMA_Y, DMA_U, DMA_V] := hperm.subset (by simp)
  have ha3 : a3 ∈ [DMA_Y, DMA_U, DMA_V] := hperm.subset (by simp)
  have hnd : ([a1, a2, a3] : List Nat).Nodup := hperm.nodup_iff.mpr (by decide)
  simp only [List.nodup_cons, List.mem_cons, List.mem_singleton,
    List.not_mem_nil, or_false, List.nodup_nil, and_true, not_or] at hnd
  obtain ⟨⟨h12, h13⟩, h23, -⟩ := hnd
  obtain ⟨hm1, hm2, hm3⟩ := clear_mask_facts a1 a2 a3 ha1 ha2 ha3 h12 h13 h23
  -- first completion: clear a1's bit, mask stays non-empty
  have hs1 : pxa_camera_dma_irq st 0 status cst dd a1 =
      updateBuf st b (fun bf =>
        { bf with active_dma := bf.active_dma &&& (4294967295 ^^^ a1) }) :=
    dma_irq_clear_nowake st b 0 status cst dd a1 hactive hbus hsrc hend
      (by rw [hch]; exact hov) (by rw [hmask]; exact hm1)
  set s1 := updateBuf st b (fun bf =>
    { bf with active_dma := bf.active_dma &&& (4294967295 ^^^ a1) }) with hs1d
  have hs1bufs : s1.bufs b = ⟨7 &&& (4294967295 ^^^ a1),
      (st.bufs b).vstate, (st.bufs b).woken⟩ := by
    rw [hs1d, updateBuf_bufs_same, ← hmask]
  -- second completion: clear a2's bit, mask still non-empty
  have hs2 : pxa_camera_dma_irq s1 0 status cst dd a2 =
      updateBuf s1 b (fun bf =>
        { bf with active_dma := bf.active_dma &&& (4294967295 ^^^ a2) }) :=
    dma_irq_clear_nowake s1 b 0 status cst dd a2 (by simp [hs1d, hactive])
      hbus hsrc hend (by simp [hs1d, hch]; exact hov)
      (by rw [hs1bufs]; exact hm2)
  set s2 := updateBuf s1 b (fun bf =>
    { bf with active_dma := bf.active_dma &&& (4294967295 ^^^ a2) }) with hs2d
  have hs2bufs : s2.bufs b = ⟨7 &&& (4294967295 ^^^ a1) &&& (4294967295 ^^^ a2),
      (st.bufs b).vstate, (st.bufs b).woken⟩ := by
    rw [hs2d, updateBuf_bufs_same, hs1bufs]
  -- third completion: the mask empties, the buffer is woken up
  have hs3 : pxa_camera_dma_irq s2 0 status cst dd a3 =
      pxa_camera_check_link_miss
        (pxa_camera_wakeup
          (updateBuf s2 b (fun bf =>
            { bf with active_dma := bf.active_dma &&& (4294967295 ^^^ a3) })) b)
        dd :=
    dma_irq_clear_wake s2 b 0 status cst dd a3
      (by simp [hs2d, hs1d, hactive]) hbus hsrc hend
      (by simp [hs2d, hs1d, hch]; exact hov)
      (by rw [hs2bufs]; exact hm3)
  set s2' := updateBuf s2 b (fun bf =>
    { bf with active_dma := bf.active_dma &&& (4294967295 ^^^ a3) }) with hs2'd
  set s3 := pxa_camera_check_link_miss (pxa_camera_wakeup s2' b) dd with hs3d
  have hruntot : runDma status cst dd st [a1, a2, a3] = s3 := by
    simp only [runDma]
    rw [hs1, hs2, hs3]
  have hs3bufs : s3.bufs b =
      { s2'.bufs b with vstate := VbState.done, woken := true } := by
    rw [hs3d, (check_link_miss_fields _ dd).2.1, wakeup_bufs_same]
  have hs3cap : s3.capture = rest := by
    rw [hs3d, (check_link_miss_fields _ dd).1, wakeup_capture]
    have : s2'.capture = b :: rest := by simp [hs2'd, hs2d, hs1d, hcap]
    rw [this, List.erase_cons_head]
  refine ⟨?_, ?_, ?_, ?_, ?_⟩
  · interval_cases k
    · simp only [List.take_zero, runDma]
      rw [hvst]
      simp
    · simp only [List.take_succ_cons, List.take_zero, runDma]
      rw [hs1, hs1bufs]
      dsimp only
      rw [hvst]
      simp
    · simp only [List.take_succ_cons, List.take_zero, runDma]
      rw [hs1, hs2, hs2bufs]
      dsimp only
      rw [hvst]
      simp
  · interval_cases k
    · simp only [List.take_zero, runDma]
      rw [hcap]
      exact List.mem_cons_self b rest
    · simp only [List.take_succ_cons, List.take_zero, runDma]
      rw [hs1]
      show b ∈ s1.capture
      rw [show s1.capture = b :: rest from by simp [hs1d, hcap]]
      exact List.mem_cons_self b rest
    · simp only [List.take_succ_cons, List.take_zero, runDma]
      rw [hs1, hs2]
      show b ∈ s2.capture
      rw [show s2.capture = b :: rest from by simp [hs2d, hs1d, hcap]]
      exact List.mem_cons_self b rest
  · rw [hruntot, hs3bufs]
  · rw [hruntot, hs3bufs]
  · rw [hruntot, hs3cap]
    exact hnotin

theorem C7_three_channel_done_witness :
    ((runDma 4 0 (fun _ => 0)
        { capture := [5], active := some 5
          bufs := fun _ => ⟨7, VbState.activeS, false⟩
          sg_tail := fun _ => none, channels := 3, dcsr_run := fun _ => true
          cicr0_enb := true, cicr0_eofm := true }
        ([DMA_U, DMA_Y, DMA_V].take 2)).bufs 5).vstate ≠ VbState.done ∧
    5 ∈ (runDma 4 0 (fun _ => 0)
        { capture := [5], active := some 5
          bufs := fun _ => ⟨7, VbState.activeS, false⟩
          sg_tail := fun _ => none, channels := 3, dcsr_run := fun _ => true
          cicr0_enb := true, cicr0_eofm := true }
        ([DMA_U, DMA_Y, DMA_V].take 2)).capture ∧
    ((runDma 4 0 (fun _ => 0)
        { capture := [5], active := some 5
          bufs := fun _ => ⟨7, VbState.activeS, false⟩
          sg_tail := fun _ => none, channels := 3, dcsr_run := fun _ => true
          cicr0_enb := true, cicr0_eofm := true }
        [DMA_U, DMA_Y, DMA_V]).bufs 5).vstate = VbState.done ∧
    ((runDma 4 0 (fun _ => 0)
        { capture := [5], active := some 5
          bufs := fun _ => ⟨7, VbState.activeS, false⟩
          sg_tail := fun _ => none, channels := 3, dcsr_run := fun _ => true
          cicr0_enb := true, cicr0_eofm := true }
        [DMA_U, DMA_Y, DMA_V]).bufs 5).woken = true ∧
    5 ∉ (runDma 4 0 (fun _ => 0)
        { capture := [5], active := some 5
          bufs := fun _ => ⟨7, VbState.activeS, false⟩
          sg_tail := fun _ => none, channels := 3, dcsr_run := fun _ => true
          cicr0_enb := true, cicr0_eofm := true }
        [DMA_U, DMA_Y, DMA_V]).capture :=
  C7_three_channel_done
    { capture := [5], active := some 5
      bufs := fun _ => ⟨7, VbState.activeS, false⟩
      sg_tail := fun _ => none, channels := 3, dcsr_run := fun _ => true
      cicr0_enb := true, cicr0_eofm := true } 5 [] 4 0 (fun _ => 0)
    [DMA_U, DMA_Y, DMA_V] 2
    rfl rfl rfl (by decide) rfl rfl (by decide) (by decide) (by decide)
    (by decide) (by decide) (by decide)

/-! ### Claim C8 -/

/-- The inductive invariant of the capture engine: the queue is non-empty
whenever a used channel is running, whenever a buffer is active, and
whenever the interface is armed (enabled with the end-of-frame interrupt
unmasked); channels beyond the configured count are never running. -/
def Inv (st : CamState) : Prop :=
  (∀ i, st.dcsr_run i = true → st.capture ≠ []) ∧
  (∀ b, st.active = some b → st.capture ≠ []) ∧
  (st.cicr0_enb = true → st.cicr0_eofm = false → st.capture ≠ []) ∧
  (∀ i, st.channels ≤ i → st.dcsr_run i = false)

lemma inv_init (nch : Nat) : Inv (initState nch) := by
  refine ⟨fun i hi => ?_, fun b hb => ?_, fun he => ?_, fun i _ => rfl⟩
  · exact absurd hi (by simp [initState])
  · exact absurd hb (by simp [initState])
  · exact absurd he (by simp [initState])

lemma inv_updateBuf (st : CamState) (b : Nat) (f : PxaBuf → PxaBuf)
    (h : Inv st) : Inv (updateBuf st b f) := by
  obtain ⟨h1, h2, h3, h4⟩ := h
  exact ⟨by simpa using h1, by simpa using h2, by simpa using h3, by simpa using h4⟩

lemma inv_check_link_miss (st : CamState) (dd : Nat → Int)
    (h : Inv st) : Inv (pxa_camera_check_link_miss st dd) := by
  obtain ⟨h1, h2, h3, h4⟩ := h
  unfold pxa_camera_check_link_miss
  split
  · rename_i hcond
    refine ⟨by simpa using h1, by simpa using h2, fun _ _ => ?_, by simpa using h4⟩
    obtain ⟨hsome, -⟩ := hcond
    obtain ⟨b, hb⟩ := Option.isSome_iff_exists.mp hsome
    simpa using h2 b hb
  · exact ⟨h1, h2, h3, h4⟩

/-- When the dequeue empties the queue, the channel run bits after
`pxa_camera_wakeup` are those written by `pxa_dma_stop_channels`. -/
lemma wakeup_empty_dcsr (st : CamState) (b : Nat)
    (h : st.capture.erase b = []) (i : Nat) :
    (pxa_camera_wakeup st b).dcsr_run i =
      if i < st.channels then false else st.dcsr_run i := by
  unfold pxa_camera_wakeup
  dsimp only
  rw [if_pos (by simpa using h)]
  rfl

lemma inv_wakeup (st : CamState) (b : Nat)
    (h4 : ∀ i, st.channels ≤ i → st.dcsr_run i = false) :
    Inv (pxa_camera_wakeup st b) := by
  by_cases hemp : st.capture.erase b = []
  · obtain ⟨hact, henb, -, -⟩ := wakeup_empty st b hemp
    refine ⟨fun i hi => ?_, fun b' hb' => ?_, fun he => ?_, fun i hge => ?_⟩
    · rw [wakeup_empty_dcsr st b hemp i] at hi
      rcases lt_or_le i st.channels with hlt | hge
      · rw [if_pos hlt] at hi
        exact absurd hi (by simp)
      · rw [if_neg (by omega)] at hi
        exact absurd hi (by simp [h4 i hge])
    · rw [hact] at hb'
      exact absurd hb' (by simp)
    · rw [henb] at he
      exact absurd he (by simp)
    · rw [wakeup_empty_dcsr st b hemp i]
      rw [wakeup_channels] at hge
      rcases lt_or_le i st.channels with hlt | hge'
      · omega
      · rw [if_neg (by omega)]
        exact h4 i hge'
  · obtain ⟨-, -, hrun, henb, -⟩ := wakeup_nonempty st b hemp
    have hcap : (pxa_camera_wakeup st b).capture ≠ [] := by
      rw [wakeup_capture]
      exact hemp
    refine ⟨fun i _ => hcap, fun b' _ => hcap, fun _ _ => hcap, fun i hge => ?_⟩
    rw [hrun]
    rw [wakeup_channels] at hge
    exact h4 i hge

lemma inv_queue (st : CamState) (b : Nat) (tails : Nat → Int)
    (h : Inv st) : Inv (pxa_videobuf_queue st b tails) := by
  obtain ⟨h1, h2, h3, h4⟩ := h
  have hne : st.capture ++ [b] ≠ [] := by simp
  unfold pxa_videobuf_queue pxa_dma_add_tail_buf
  dsimp only
  split
  · refine ⟨fun i _ => by simpa using hne, fun b' _ => by simpa using hne,
      fun _ _ => by simpa using hne, fun i hge => by simpa using h4 i (by simpa using hge)⟩
  · refine ⟨fun i _ => by simpa using hne, fun b' _ => by simpa using hne,
      fun _ _ => by simpa using hne, fun i hge => by simpa using h4 i (by simpa using hge)⟩

/-- The fields of the frame-interrupt EOF branch. -/
lemma frame_eof_fields (st : CamState) (cisr : Nat) (b : Nat)
    (hz : ¬ cisr = 0) (heof : cisr &&& CISR_EOF ≠ 0)
    (hhead : st.capture.head? = some b) :
    (pxa_camera_irq st cisr).capture = st.capture ∧
    (pxa_camera_irq st cisr).channels = st.channels ∧
    (∀ i, (pxa_camera_irq st cisr).dcsr_run i =
      if i < st.channels then true else st.dcsr_run i) := by
  unfold pxa_camera_irq
  rw [if_neg hz, if_pos heof]
  simp only [hhead]
  exact ⟨rfl, rfl, fun i => rfl⟩

lemma inv_frame (st : CamState) (cisr : Nat)
    (h : Inv st) (henb : st.cicr0_enb = true) (heofm : st.cicr0_eofm = false) :
    Inv (pxa_camera_irq st cisr) := by
  obtain ⟨h1, h2, h3, h4⟩ := h
  have hne : st.capture ≠ [] := h3 henb heofm
  by_cases hz : cisr = 0
  · rw [show pxa_camera_irq st cisr = st from by
      unfold pxa_camera_irq; rw [if_pos hz]]
    exact ⟨h1, h2, h3, h4⟩
  by_cases heof : cisr &&& CISR_EOF = 0
  · rw [show pxa_camera_irq st cisr = st from by
      unfold pxa_camera_irq; rw [if_neg hz, if_neg (not_ne_iff.mpr heof)]]
    exact ⟨h1, h2, h3, h4⟩
  · cases hhead : st.capture.head? with
    | none =>
      exact absurd hhead (by
        cases hcap : st.capture with
        | nil => exact absurd hcap hne
        | cons x t => simp [hcap])
    | some b =>
      obtain ⟨hcap, hch, hdc⟩ := frame_eof_fields st cisr b hz heof hhead
      refine ⟨fun i _ => by rw [hcap]; exact hne,
        fun b' _ => by rw [hcap]; exact hne,
        fun _ _ => by rw [hcap]; exact hne, fun i hge => ?_⟩
      rw [hch] at hge
      rw [hdc i, if_neg (by omega)]
      exact h4 i hge

lemma inv_dma (st : CamState) (channel status camera_status : Nat)
    (dd : Nat → Int) (act : Nat) (h : Inv st) :
    Inv (pxa_camera_dma_irq st channel status camera_status dd act) := by
  have hcopy := h
  obtain ⟨h1, h2, h3, h4⟩ := hcopy
  unfold pxa_camera_dma_irq
  split
  · exact h
  · split
    · exact h
    · split
      · exact h
      · rename_i b heq
        split
        · split
          · -- overrun restart: the queue, untouched, has at least 2 entries
            rename_i hcond
            have hne : st.capture ≠ [] := by
              intro hnil
              rw [hnil] at hcond
              exact hcond.2 (by simp)
            refine ⟨fun i _ => by simpa using hne, fun b' _ => by simpa using hne,
              fun _ _ => by simpa using hne, fun i hge => ?_⟩
            simp only [start_capture_channels, stop_capture_channels] at hge
            show (pxa_camera_start_capture (pxa_camera_stop_capture st)).dcsr_run i = false
            rw [start_capture_dcsr_run, stop_capture_dcsr_run, if_neg (by omega)]
            exact h4 i hge
          · -- completion: clear the channel bit, possibly wake up
            dsimp only
            split
            · apply inv_check_link_miss
              apply inv_wakeup
              intro i hge
              simpa using h4 i (by simpa using hge)
            · exact inv_updateBuf st b _ h
        · exact h

/-- Every reachable state satisfies the invariant. -/
lemma reachable_inv (st : CamState) (h : Reachable st) : Inv st := by
  induction h with
  | init nch => exact inv_init nch
  | queue st b tails _ ih => exact inv_queue st b tails ih
  | frame st cisr _ henb heofm ih => exact inv_frame st cisr ih henb heofm
  | dma st channel status camera_status dd act _ ih =>
    exact inv_dma st channel status camera_status dd act ih

/-- C8: in every reachable state of the capture engine, if any used DMA
channel is running then the capture queue is non-empty; and retiring the
buffer whose dequeue empties the queue (`pxa_camera_wakeup` with the
capture list emptying) stops every used channel, clears its recorded
tail, disables the interface and leaves no active buffer. -/
theorem C8_running_queue_invariant (st : CamState) (i b : Nat)
    (hreach : Reachable st)
    (hrun : st.dcsr_run i = true)
    (hi : i < st.channels)
    (hlast : st.capture.erase b = []) :
    st.capture ≠ [] ∧
    (pxa_camera_wakeup st b).dcsr_run i = false ∧
    (pxa_camera_wakeup st b).sg_tail i = none ∧
    (pxa_camera_wakeup st b).active = none ∧
    (pxa_camera_wakeup st b).cicr0_enb = false := by
  obtain ⟨hact, henb, hdcsr, htail⟩ := wakeup_empty st b hlast
  exact ⟨(reachable_inv st hreach).1 i hrun, hdcsr i hi, htail i hi, hact, henb⟩

theorem C8_running_queue_invariant_witness :
    (pxa_camera_irq (pxa_videobuf_queue (initState 1) 0 (fun _ => 0)) 8).capture ≠ [] ∧
    (pxa_camera_wakeup
        (pxa_camera_irq (pxa_videobuf_queue (initState 1) 0 (fun _ => 0)) 8)
        0).dcsr_run 0 = false ∧
    (pxa_camera_wakeup
        (pxa_camera_irq (pxa_videobuf_queue (initState 1) 0 (fun _ => 0)) 8)
        0).sg_tail 0 = none ∧
    (pxa_camera_wakeup
        (pxa_camera_irq (pxa_videobuf_queue (initState 1) 0 (fun _ => 0)) 8)
        0).active = none ∧
    (pxa_camera_wakeup
        (pxa_camera_irq (pxa_videobuf_queue (initState 1) 0 (fun _ => 0)) 8)
        0).cicr0_enb = false :=
  C8_running_queue_invariant
    (pxa_camera_irq (pxa_videobuf_queue (initState 1) 0 (fun _ => 0)) 8) 0 0
    (Reachable.frame _ 8 (Reachable.queue _ 0 _ (Reachable.init 1)) rfl rfl)
    (by decide) (by decide) (by decide)

end PxaCam
